import Mathlib

/-!
Verification of the claims-dashboard claim lifecycle engine.

The repository ships a React frontend (`dashboard/frontend/src`), a README
describing the Flask backend, and a dataset note.  The backend itself
(Claim Store, Status Aggregator, Orchestrator, Submission Ingestor,
Practitioner Review Handler) is not part of the sources available here, so
those components are modelled from the specification; the frontend modules
(`SubmitClaimPage.jsx`, `api.js`, `ClaimsListPage.jsx`,
`PractitionerPage.jsx`) are embedded directly from their JavaScript source.
-/

namespace ClaimsDashboard

/-- Per-report outcome: `pending | accept | reject | uncertain` (spec §3). -/
inductive Evaluation where
  | pending
  | accept
  | reject
  | uncertain
deriving DecidableEq, Repr

/-- Claim-level status derived from report evaluations (spec §3). -/
inductive ClaimStatus where
  | pending
  | accept
  | reject
  | uncertain
deriving DecidableEq, Repr

/-- Modelled from the spec: the Status Aggregator (spec §4.2); the backend
module implementing it is not among the available sources.  Pure function
over the ordered sequence of a claim's report evaluations:
any `pending` → `pending`; else any `reject` → `reject`;
else all `accept` → `accept`; else `uncertain`. -/
def aggregate (evals : List Evaluation) : ClaimStatus :=
  if evals.any (fun e => e = Evaluation.pending) then ClaimStatus.pending
  else if evals.any (fun e => e = Evaluation.reject) then ClaimStatus.reject
  else if evals.all (fun e => e = Evaluation.accept) then ClaimStatus.accept
  else ClaimStatus.uncertain

/-- The function `List.any` only depends on the multiset of elements. -/
theorem any_of_perm {α : Type} {l₁ l₂ : List α} (h : l₁.Perm l₂) (p : α → Bool) :
    l₁.any p = l₂.any p := by
  rw [Bool.eq_iff_iff, List.any_eq_true, List.any_eq_true]
  constructor
  · rintro ⟨x, hx, hpx⟩
    exact ⟨x, h.mem_iff.mp hx, hpx⟩
  · rintro ⟨x, hx, hpx⟩
    exact ⟨x, h.mem_iff.mpr hx, hpx⟩

/-- The function `List.all` only depends on the multiset of elements. -/
theorem all_of_perm {α : Type} {l₁ l₂ : List α} (h : l₁.Perm l₂) (p : α → Bool) :
    l₁.all p = l₂.all p := by
  rw [Bool.eq_iff_iff, List.all_eq_true, List.all_eq_true]
  constructor
  · intro ha x hx
    exact ha x (h.mem_iff.mpr hx)
  · intro ha x hx
    exact ha x (h.mem_iff.mp hx)

theorem aggregate_of_perm {l₁ l₂ : List Evaluation} (h : l₁.Perm l₂) :
    aggregate l₁ = aggregate l₂ := by
  unfold aggregate
  rw [any_of_perm h, any_of_perm h, all_of_perm h]

theorem aggregate_pending_mem {evals : List Evaluation}
    (h : Evaluation.pending ∈ evals) : aggregate evals = ClaimStatus.pending := by
  unfold aggregate
  rw [if_pos]
  rw [List.any_eq_true]
  exact ⟨Evaluation.pending, h, by decide⟩

/-- C1: on a sequence with no `pending` entry, the aggregate is `reject`
iff some entry is `reject`; failing that it is `accept` iff every entry is
`accept`; failing both it is `uncertain`. -/
theorem aggregate_no_pending_cases (evals : List Evaluation)
    (hnp : Evaluation.pending ∉ evals) :
    (aggregate evals = ClaimStatus.reject ↔ Evaluation.reject ∈ evals) ∧
    (Evaluation.reject ∉ evals →
      (aggregate evals = ClaimStatus.accept ↔ ∀ e ∈ evals, e = Evaluation.accept)) ∧
    (Evaluation.reject ∉ evals → ¬ (∀ e ∈ evals, e = Evaluation.accept) →
      aggregate evals = ClaimStatus.uncertain) := by
  have hpend : evals.any (fun e => e = Evaluation.pending) = false := by
    rw [Bool.eq_false_iff]
    intro hc
    rw [List.any_eq_true] at hc
    obtain ⟨x, hx, hpx⟩ := hc
    rw [decide_eq_true_eq] at hpx
    exact hnp (hpx ▸ hx)
  refine ⟨?_, ?_, ?_⟩
  · constructor
    · intro hagg
      by_contra hmem
      have hrej : evals.any (fun e => e = Evaluation.reject) = false := by
        rw [Bool.eq_false_iff]
        intro hc
        rw [List.any_eq_true] at hc
        obtain ⟨x, hx, hpx⟩ := hc
        rw [decide_eq_true_eq] at hpx
        exact hmem (hpx ▸ hx)
      unfold aggregate at hagg
      rw [hpend] at hagg
      simp only [Bool.false_eq_true, if_false, hrej] at hagg
      by_cases hall : evals.all (fun e => e = Evaluation.accept) = true
      · rw [if_pos hall] at hagg
        exact absurd hagg (by decide)
      · rw [if_neg hall] at hagg
        exact absurd hagg (by decide)
    · intro hmem
      unfold aggregate
      rw [hpend]
      simp only [Bool.false_eq_true, if_false]
      rw [if_pos]
      rw [List.any_eq_true]
      exact ⟨Evaluation.reject, hmem, by decide⟩
  · intro hnr
    have hrej : evals.any (fun e => e = Evaluation.reject) = false := by
      rw [Bool.eq_false_iff]
      intro hc
      rw [List.any_eq_true] at hc
      obtain ⟨x, hx, hpx⟩ := hc
      rw [decide_eq_true_eq] at hpx
      exact hnr (hpx ▸ hx)
    unfold aggregate
    rw [hpend, hrej]
    simp only [Bool.false_eq_true, if_false]
    constructor
    · intro hacc
      by_cases hall : evals.all (fun e => e = Evaluation.accept) = true
      · rw [List.all_eq_true] at hall
        intro e he
        have := hall e he
        rwa [decide_eq_true_eq] at this
      · rw [if_neg hall] at hacc
        exact absurd hacc (by decide)
    · intro hall
      rw [if_pos]
      rw [List.all_eq_true]
      intro e he
      rw [decide_eq_true_eq]
      exact hall e he
  · intro hnr hnall
    have hrej : evals.any (fun e => e = Evaluation.reject) = false := by
      rw [Bool.eq_false_iff]
      intro hc
      rw [List.any_eq_true] at hc
      obtain ⟨x, hx, hpx⟩ := hc
      rw [decide_eq_true_eq] at hpx
      exact hnr (hpx ▸ hx)
    have hall : evals.all (fun e => e = Evaluation.accept) = false := by
      rw [Bool.eq_false_iff]
      intro hc
      rw [List.all_eq_true] at hc
      apply hnall
      intro e he
      have := hc e he
      rwa [decide_eq_true_eq] at this
    unfold aggregate
    rw [hpend, hrej, hall]
    simp

theorem aggregate_no_pending_cases_witness :
    (aggregate [Evaluation.accept, Evaluation.uncertain] = ClaimStatus.reject ↔
        Evaluation.reject ∈ [Evaluation.accept, Evaluation.uncertain]) ∧
    (Evaluation.reject ∉ [Evaluation.accept, Evaluation.uncertain] →
      (aggregate [Evaluation.accept, Evaluation.uncertain] = ClaimStatus.accept ↔
        ∀ e ∈ [Evaluation.accept, Evaluation.uncertain], e = Evaluation.accept)) ∧
    (Evaluation.reject ∉ [Evaluation.accept, Evaluation.uncertain] →
      ¬ (∀ e ∈ [Evaluation.accept, Evaluation.uncertain], e = Evaluation.accept) →
      aggregate [Evaluation.accept, Evaluation.uncertain] = ClaimStatus.uncertain) :=
  aggregate_no_pending_cases [Evaluation.accept, Evaluation.uncertain] (by decide)

/-- C2: any `pending` entry forces the aggregate to `pending`, which is a
status distinct from `uncertain`, `accept` and `reject`. -/
theorem aggregate_pending_dominates (evals : List Evaluation)
    (h : Evaluation.pending ∈ evals) :
    aggregate evals = ClaimStatus.pending ∧
    aggregate evals ≠ ClaimStatus.uncertain ∧
    aggregate evals ≠ ClaimStatus.accept ∧
    aggregate evals ≠ ClaimStatus.reject := by
  have hp := aggregate_pending_mem h
  refine ⟨hp, ?_, ?_, ?_⟩ <;> rw [hp] <;> decide

theorem aggregate_pending_dominates_witness :
    aggregate [Evaluation.reject, Evaluation.pending] = ClaimStatus.pending ∧
    aggregate [Evaluation.reject, Evaluation.pending] ≠ ClaimStatus.uncertain ∧
    aggregate [Evaluation.reject, Evaluation.pending] ≠ ClaimStatus.accept ∧
    aggregate [Evaluation.reject, Evaluation.pending] ≠ ClaimStatus.reject :=
  aggregate_pending_dominates [Evaluation.reject, Evaluation.pending] (by decide)

/-- A single uploaded report and its classification outcome (spec §3); the
attempt counter is kept alongside the report as spec §4.4 prescribes. -/
structure Report where
  filename : String
  stored_path : String
  evaluation : Evaluation
  explanation : String
  evaluated_at : Option String
  attempts : Nat
deriving DecidableEq, Repr

/-- One submission's aggregate record (spec §3).  `reviewed` is the mark
set by the Practitioner Review Handler so the Orchestrator skips the claim
on all future cycles (spec §4.5). -/
structure Claim where
  submission_id : String
  created_at : String
  comments : String
  status : ClaimStatus
  practitioner_comment : Option String
  reviewed : Bool
  reports : List Report
deriving DecidableEq, Repr

/-- Recompute a claim's status from its current reports via the Aggregator
(spec §3 invariant: `claim.status` is consistent with the Aggregator
applied to its current reports). -/
def recomputeStatus (c : Claim) : Claim :=
  { c with status := aggregate (c.reports.map (fun r => r.evaluation)) }

/-- C7: the Aggregator is a deterministic pure function of the multiset of
evaluations: recomputing a claim's status twice from stored state equals
recomputing it once, and permuting the report sequence leaves the
aggregate unchanged. -/
theorem aggregate_idempotent_perm_invariant (c : Claim) (l₁ l₂ : List Evaluation)
    (h : l₁.Perm l₂) :
    recomputeStatus (recomputeStatus c) = recomputeStatus c ∧
    aggregate l₁ = aggregate l₂ := by
  constructor
  · unfold recomputeStatus
    rfl
  · exact aggregate_of_perm h

/-- A sample accepted claim, used to exercise the handlers on concrete
inputs. -/
def sampleAcceptedClaim : Claim :=
  { submission_id := "CLM-1", created_at := "2026-01-01", comments := "",
    status := ClaimStatus.accept, practitioner_comment := none,
    reviewed := false, reports := [] }

theorem aggregate_idempotent_perm_invariant_witness :
    recomputeStatus (recomputeStatus sampleAcceptedClaim) =
      recomputeStatus sampleAcceptedClaim ∧
    aggregate [Evaluation.accept, Evaluation.reject] =
      aggregate [Evaluation.reject, Evaluation.accept] :=
  aggregate_idempotent_perm_invariant sampleAcceptedClaim
    [Evaluation.accept, Evaluation.reject] [Evaluation.reject, Evaluation.accept]
    (by decide)

/-- Error taxonomy of the core (spec §7). -/
inductive CoreError where
  | validationError
  | notFoundError
  | invalidStateError
  | duplicateIdError
deriving DecidableEq, Repr

/-- The Claim Store's keyed collection of claims (spec §4.1), as the
sequence of claims of the persisted document. -/
abbrev Store : Type := List Claim

/-- Modelled from the spec: `Store.get` (spec §4.1); the backend store
module is not among the available sources.  Returns the claim with the
given id or fails with `NotFoundError`. -/
def Store.get (s : Store) (id : String) : Except CoreError Claim :=
  match List.find? (fun c => c.submission_id == id) s with
  | some c => Except.ok c
  | none => Except.error CoreError.notFoundError

/-- Modelled from the spec: the Practitioner Review Handler (spec §4.5);
the backend handler is not among the available sources.  Precondition
`claim.status == "uncertain"`, otherwise `InvalidStateError` and no
mutation; on success sets `status`, `practitioner_comment`, marks the
claim reviewed inside one `Store.update` critical section, and returns the
updated status.  The returned store is the post-state: on failure it is
the input store unchanged. -/
def review (s : Store) (id : String) (finalStatus : ClaimStatus)
    (comment : String) : Store × Except CoreError ClaimStatus :=
  match List.find? (fun c => c.submission_id == id) s with
  | none => (s, Except.error CoreError.notFoundError)
  | some c =>
    if c.status = ClaimStatus.uncertain then
      let c' : Claim :=
        { c with status := finalStatus, practitioner_comment := some comment,
                 reviewed := true }
      (s.map (fun d => if d.submission_id == id then c' else d),
       Except.ok finalStatus)
    else (s, Except.error CoreError.invalidStateError)

/-- C3: `review` on a claim whose status is not `uncertain` fails with
`InvalidStateError` and returns the store unchanged, so no field of the
claim is mutated. -/
theorem review_non_uncertain_no_mutation (s : Store) (id : String)
    (finalStatus : ClaimStatus) (comment : String) (c : Claim)
    (hget : Store.get s id = Except.ok c)
    (hst : c.status ≠ ClaimStatus.uncertain) :
    review s id finalStatus comment = (s, Except.error CoreError.invalidStateError) ∧
    Store.get s id = Except.ok c := by
  refine ⟨?_, hget⟩
  have hfind : List.find? (fun c => c.submission_id == id) s = some c := by
    unfold Store.get at hget
    cases h : List.find? (fun c => c.submission_id == id) s with
    | none =>
      rw [h] at hget
      exact absurd hget (by simp)
    | some d =>
      rw [h] at hget
      simpa using hget
  simp only [review, hfind]
  rw [if_neg hst]

theorem review_non_uncertain_no_mutation_witness :
    review [sampleAcceptedClaim] "CLM-1" ClaimStatus.reject "note" =
      ([sampleAcceptedClaim], Except.error CoreError.invalidStateError) ∧
    Store.get [sampleAcceptedClaim] "CLM-1" = Except.ok sampleAcceptedClaim :=
  review_non_uncertain_no_mutation [sampleAcceptedClaim] "CLM-1"
    ClaimStatus.reject "note" sampleAcceptedClaim (by rfl) (by decide)

/-- Result of one Classifier invocation (spec §6): either an evaluation
with an explanation, or a failure (error and timeout are treated
identically, spec §5). -/
inductive ClassifierOutcome where
  | success (ev : Evaluation) (expl : String)
  | failure
deriving DecidableEq, Repr

/-- Modelled from the spec: the explanation marking automatic fallback
written when retries are exhausted (spec §4.4). -/
def fallbackExplanation : String :=
  "Automatically marked uncertain after exhausting classifier retry attempts."

/-- Modelled from the spec: the Orchestrator's handling of one report in
one cycle (spec §4.4); the backend listener is not among the available
sources.  Only `pending` reports are dispatched; on success the report's
`evaluation`/`explanation`/`evaluated_at` are written; on failure the
attempt counter kept alongside the report is incremented, and on reaching
`maxAttempts` the evaluation is forced to `uncertain` with the fallback
explanation. -/
def processReport (maxAttempts : Nat) (now : String) (outcome : ClassifierOutcome)
    (r : Report) : Report :=
  if r.evaluation = Evaluation.pending then
    match outcome with
    | ClassifierOutcome.success ev expl =>
        { r with evaluation := ev, explanation := expl, evaluated_at := some now }
    | ClassifierOutcome.failure =>
        if maxAttempts ≤ r.attempts + 1 then
          { r with evaluation := Evaluation.uncertain,
                   explanation := fallbackExplanation, attempts := r.attempts + 1 }
        else { r with attempts := r.attempts + 1 }
  else r

/-- Modelled from the spec: one Orchestrator cycle over one claim
(spec §4.4, §4.5): a practitioner-reviewed claim is skipped entirely;
otherwise every pending report is processed with its classifier outcome
(keyed by filename) and the status is recomputed via the Aggregator. -/
def orchestrateClaim (maxAttempts : Nat) (now : String)
    (o : String → ClassifierOutcome) (c : Claim) : Claim :=
  if c.reviewed then c
  else
    let reports := c.reports.map (fun r => processReport maxAttempts now (o r.filename) r)
    { c with reports := reports,
             status := aggregate (reports.map (fun r => r.evaluation)) }

/-- Replacing the found claim by one with the same id is visible to a
subsequent `find?` on the id. -/
theorem find?_map_replace (l : List Claim) (id : String) (c c' : Claim)
    (hid : (c'.submission_id == id) = true)
    (h : List.find? (fun d => d.submission_id == id) l = some c) :
    List.find? (fun d => d.submission_id == id)
        (l.map (fun d => if d.submission_id == id then c' else d)) = some c' := by
  induction l with
  | nil => simp at h
  | cons a l ih =>
    by_cases ha : (a.submission_id == id) = true
    · simp only [List.map_cons, if_pos ha, List.find?_cons, hid]
    · have ha' : (a.submission_id == id) = false := by
        simpa using ha
      simp only [List.find?_cons, ha'] at h
      simp only [List.map_cons, List.find?_cons, ha']
      simp only [Bool.false_eq_true, if_false, ha']
      exact ih h

/-- C4: `review` on an `uncertain` claim returns the chosen final status,
stores the claim with `status = finalStatus`, `practitioner_comment =
comment` and the reviewed mark set, and every subsequent Orchestrator
cycle leaves the reviewed claim unchanged, whatever the classifier
outcomes and attempt bound (in particular even if some report is still
pending). -/
theorem review_uncertain_updates_and_is_final (s : Store) (id : String)
    (finalStatus : ClaimStatus) (comment : String) (c : Claim)
    (hget : Store.get s id = Except.ok c)
    (hst : c.status = ClaimStatus.uncertain)
    (hfs : finalStatus = ClaimStatus.accept ∨ finalStatus = ClaimStatus.reject ∨
      finalStatus = ClaimStatus.uncertain) :
    (review s id finalStatus comment).2 = Except.ok finalStatus ∧
    Store.get (review s id finalStatus comment).1 id =
      Except.ok { c with status := finalStatus,
                         practitioner_comment := some comment, reviewed := true } ∧
    (∀ (maxAttempts : Nat) (now : String) (o : String → ClassifierOutcome),
      orchestrateClaim maxAttempts now o
          { c with status := finalStatus,
                   practitioner_comment := some comment, reviewed := true } =
        { c with status := finalStatus,
                 practitioner_comment := some comment, reviewed := true }) := by
  have hfind : List.find? (fun d => d.submission_id == id) s = some c := by
    unfold Store.get at hget
    cases h : List.find? (fun d => d.submission_id == id) s with
    | none =>
      rw [h] at hget
      exact absurd hget (by simp)
    | some d =>
      rw [h] at hget
      simpa using hget
  have hid : (c.submission_id == id) = true :=
    List.find?_some (p := fun d : Claim => d.submission_id == id) hfind
  refine ⟨?_, ?_, ?_⟩
  · simp only [review, hfind, if_pos hst]
  · simp only [review, hfind, if_pos hst]
    unfold Store.get
    rw [find?_map_replace s id c
      { c with status := finalStatus, practitioner_comment := some comment,
               reviewed := true } hid hfind]
  · intro maxAttempts now o
    simp [orchestrateClaim]

/-- A sample report evaluated `accept`. -/
def sampleAcceptReport : Report :=
  { filename := "cbc.pdf", stored_path := "CLM-2/cbc.pdf",
    evaluation := Evaluation.accept, explanation := "normal values",
    evaluated_at := some "2026-01-02", attempts := 1 }

/-- A sample report evaluated `uncertain`. -/
def sampleUncertainReport : Report :=
  { filename := "xray.png", stored_path := "CLM-2/xray.png",
    evaluation := Evaluation.uncertain, explanation := "ambiguous finding",
    evaluated_at := some "2026-01-02", attempts := 1 }

/-- A sample claim with reports `accept` and `uncertain` (Scenario C of
the spec); its stored status is kept consistent with the Aggregator by
`recomputeStatus` where it is used. -/
def sampleUncertainClaim : Claim :=
  { submission_id := "CLM-2", created_at := "2026-01-02", comments := "fever",
    status := ClaimStatus.uncertain, practitioner_comment := none,
    reviewed := false, reports := [sampleAcceptReport, sampleUncertainReport] }

theorem review_uncertain_updates_and_is_final_witness :
    ((review [recomputeStatus sampleUncertainClaim] "CLM-2" ClaimStatus.reject
        "manual override").2 = Except.ok ClaimStatus.reject ∧
    Store.get (review [recomputeStatus sampleUncertainClaim] "CLM-2"
        ClaimStatus.reject "manual override").1 "CLM-2" =
      Except.ok { recomputeStatus sampleUncertainClaim with
                    status := ClaimStatus.reject,
                    practitioner_comment := some "manual override",
                    reviewed := true } ∧
    (∀ (maxAttempts : Nat) (now : String) (o : String → ClassifierOutcome),
      orchestrateClaim maxAttempts now o
          { recomputeStatus sampleUncertainClaim with
              status := ClaimStatus.reject,
              practitioner_comment := some "manual override", reviewed := true } =
        { recomputeStatus sampleUncertainClaim with
            status := ClaimStatus.reject,
            practitioner_comment := some "manual override", reviewed := true })) :=
  review_uncertain_updates_and_is_final [recomputeStatus sampleUncertainClaim]
    "CLM-2" ClaimStatus.reject "manual override"
    (recomputeStatus sampleUncertainClaim) (by rfl) (by rfl)
    (Or.inr (Or.inl rfl))

/-- Iterating the failure branch from a pending report whose remaining
attempt budget is exactly `k` forces the `uncertain` fallback. -/
theorem processReport_failure_iterate (m : Nat) (now : String) (k : Nat)
    (hk : 0 < k) (r : Report) (hp : r.evaluation = Evaluation.pending)
    (hsum : r.attempts + k = m) :
    (processReport m now ClassifierOutcome.failure)^[k] r =
      { r with evaluation := Evaluation.uncertain,
               explanation := fallbackExplanation, attempts := m } := by
  induction k generalizing r with
  | zero => exact absurd hk (by decide)
  | succ n ih =>
    rw [Function.iterate_succ_apply]
    by_cases hn : n = 0
    · subst hn
      have hstep : processReport m now ClassifierOutcome.failure r =
          { r with evaluation := Evaluation.uncertain,
                   explanation := fallbackExplanation, attempts := r.attempts + 1 } := by
        unfold processReport
        rw [if_pos hp]
        have hle : m ≤ r.attempts + 1 := by omega
        simp only [if_pos hle]
      rw [hstep, Function.iterate_zero_apply]
      have : r.attempts + 1 = m := by omega
      rw [this]
    · have hlt : ¬ m ≤ r.attempts + 1 := by omega
      have hstep : processReport m now ClassifierOutcome.failure r =
          { r with attempts := r.attempts + 1 } := by
        unfold processReport
        rw [if_pos hp]
        simp only [if_neg hlt]
      rw [hstep]
      have := ih (by omega) { r with attempts := r.attempts + 1 } hp (by simp; omega)
      rw [this]

/-- Iterating an all-failures Orchestrator cycle on a claim that is not
practitioner-reviewed processes each report pointwise and recomputes the
status from the final reports. -/
theorem orchestrateClaim_failure_iterate (m : Nat) (now : String) (c : Claim)
    (hrev : c.reviewed = false) (k : Nat) (hk : 0 < k) :
    (orchestrateClaim m now (fun _ => ClassifierOutcome.failure))^[k] c =
      { c with
          reports := c.reports.map
            ((processReport m now ClassifierOutcome.failure)^[k]),
          status := aggregate ((c.reports.map
            ((processReport m now ClassifierOutcome.failure)^[k])).map
              (fun r => r.evaluation)) } := by
  induction k with
  | zero => exact absurd hk (by decide)
  | succ n ih =>
    by_cases hn : n = 0
    · subst hn
      rw [Function.iterate_one]
      unfold orchestrateClaim
      rw [hrev]
      simp
    · rw [Function.iterate_succ_apply', ih (by omega)]
      unfold orchestrateClaim
      rw [hrev]
      simp only [Bool.false_eq_true, if_false, List.map_map]
      have hcomp :
          (processReport m now ClassifierOutcome.failure) ∘
            (processReport m now ClassifierOutcome.failure)^[n] =
          (processReport m now ClassifierOutcome.failure)^[n + 1] :=
        (Function.iterate_succ' (processReport m now ClassifierOutcome.failure) n).symm
      rw [hcomp]

/-- C6: when the Classifier fails on `maxAttempts` consecutive cycles, a
report that started `pending` with no prior attempts is forced to
`uncertain` with the automatic-fallback explanation, and the claim status
is recomputed by the Aggregator from the resulting reports; the cycle
function is total, so no classifier failure escapes it. -/
theorem orchestrator_exhausted_retries_degrade (m : Nat) (now : String)
    (c : Claim) (hm : 0 < m) (hrev : c.reviewed = false) :
    ((orchestrateClaim m now (fun _ => ClassifierOutcome.failure))^[m] c).reports =
      c.reports.map ((processReport m now ClassifierOutcome.failure)^[m]) ∧
    (∀ r : Report, r.evaluation = Evaluation.pending → r.attempts = 0 →
      (processReport m now ClassifierOutcome.failure)^[m] r =
        { r with evaluation := Evaluation.uncertain,
                 explanation := fallbackExplanation, attempts := m }) ∧
    ((orchestrateClaim m now (fun _ => ClassifierOutcome.failure))^[m] c).status =
      aggregate ((((orchestrateClaim m now
          (fun _ => ClassifierOutcome.failure))^[m] c).reports).map
        (fun r => r.evaluation)) := by
  have hiter := orchestrateClaim_failure_iterate m now c hrev m hm
  refine ⟨?_, ?_, ?_⟩
  · rw [hiter]
  · intro r hp ha
    exact processReport_failure_iterate m now m hm r hp (by omega)
  · rw [hiter]

/-- A sample freshly submitted claim with one pending report. -/
def samplePendingClaim : Claim :=
  { submission_id := "CLM-3", created_at := "2026-01-03", comments := "",
    status := ClaimStatus.pending, practitioner_comment := none,
    reviewed := false,
    reports := [{ filename := "smear.pdf", stored_path := "CLM-3/smear.pdf",
                  evaluation := Evaluation.pending, explanation := "",
                  evaluated_at := none, attempts := 0 }] }

theorem orchestrator_exhausted_retries_degrade_witness :
    ((orchestrateClaim 2 "2026-01-04"
        (fun _ => ClassifierOutcome.failure))^[2] samplePendingClaim).reports =
      samplePendingClaim.reports.map
        ((processReport 2 "2026-01-04" ClassifierOutcome.failure)^[2]) ∧
    (∀ r : Report, r.evaluation = Evaluation.pending → r.attempts = 0 →
      (processReport 2 "2026-01-04" ClassifierOutcome.failure)^[2] r =
        { r with evaluation := Evaluation.uncertain,
                 explanation := fallbackExplanation, attempts := 2 }) ∧
    ((orchestrateClaim 2 "2026-01-04"
        (fun _ => ClassifierOutcome.failure))^[2] samplePendingClaim).status =
      aggregate ((((orchestrateClaim 2 "2026-01-04"
          (fun _ => ClassifierOutcome.failure))^[2] samplePendingClaim).reports).map
        (fun r => r.evaluation)) :=
  orchestrator_exhausted_retries_degrade 2 "2026-01-04" samplePendingClaim
    (by decide) (by rfl)

/-- Modelled from the spec: the pending report the Submission Ingestor
records for one uploaded file, persisted to a location keyed by
`(submission_id, filename)` (spec §4.3). -/
def pendingReport (newId fn : String) : Report :=
  { filename := fn, stored_path := newId ++ "/" ++ fn,
    evaluation := Evaluation.pending, explanation := "",
    evaluated_at := none, attempts := 0 }

/-- Modelled from the spec: the Claim the Submission Ingestor creates,
with all reports `pending` and status `pending` (spec §4.3). -/
def ingestClaim (comments createdAt newId : String)
    (filenames : List String) : Claim :=
  { submission_id := newId, created_at := createdAt, comments := comments,
    status := ClaimStatus.pending, practitioner_comment := none,
    reviewed := false, reports := filenames.map (pendingReport newId) }

/-- Modelled from the spec: the Submission Ingestor (spec §4.3); the
backend ingestor is not among the available sources.  Fails with
`ValidationError` on an empty file list or on duplicate filenames within
one submission; a colliding `submission_id` is a `DuplicateIdError`
(spec §7); otherwise creates the claim via the Store and returns
`(submission_id, status)`. -/
def ingest (s : Store) (comments createdAt newId : String)
    (filenames : List String) : Store × Except CoreError (String × ClaimStatus) :=
  if filenames.isEmpty then (s, Except.error CoreError.validationError)
  else if filenames.Nodup then
    if s.any (fun c => c.submission_id == newId) then
      (s, Except.error CoreError.duplicateIdError)
    else
      (s ++ [ingestClaim comments createdAt newId filenames],
       Except.ok (newId, ClaimStatus.pending))
  else (s, Except.error CoreError.validationError)

/-- C5 counterexample: a non-empty upload whose two files share a filename
is rejected with `ValidationError` instead of creating a claim, because
duplicate filenames within one submission are invalid. -/
theorem ingest_nonempty_duplicate_rejected :
    (["a.pdf", "a.pdf"] : List String) ≠ [] ∧
    ingest [] "" "2026-01-05" "CLM-9" ["a.pdf", "a.pdf"] =
      ([], Except.error CoreError.validationError) := by
  constructor
  · decide
  · rfl

/-- C5 (amended): an empty file list fails with `ValidationError` and
leaves the store unchanged; a non-empty list of pairwise-distinct
filenames under a fresh submission id creates a claim whose reports are
all `pending`, whose status is `pending`, and returns the pair
`(submission_id, status)`. -/
theorem ingest_validation_and_creation (s : Store)
    (comments createdAt newId : String) (filenames : List String)
    (hnd : filenames.Nodup)
    (hfresh : s.any (fun c => c.submission_id == newId) = false) :
    ingest s comments createdAt newId [] =
      (s, Except.error CoreError.validationError) ∧
    (filenames ≠ [] →
      ingest s comments createdAt newId filenames =
        (s ++ [ingestClaim comments createdAt newId filenames],
         Except.ok (newId, ClaimStatus.pending)) ∧
      (ingestClaim comments createdAt newId filenames).status =
        ClaimStatus.pending ∧
      ∀ r ∈ (ingestClaim comments createdAt newId filenames).reports,
        r.evaluation = Evaluation.pending) := by
  constructor
  · rfl
  · intro hne
    have hempty : filenames.isEmpty = false := by
      cases filenames with
      | nil => exact absurd rfl hne
      | cons a l => rfl
    refine ⟨?_, rfl, ?_⟩
    · unfold ingest
      rw [hempty]
      simp only [Bool.false_eq_true, if_false, if_pos hnd, hfresh]
    · intro r hr
      unfold ingestClaim at hr
      simp only [List.mem_map] at hr
      obtain ⟨fn, _, hrfn⟩ := hr
      rw [← hrfn]
      rfl

theorem ingest_validation_and_creation_witness :
    ingest [] "routine visit" "2026-01-05" "CLM-9" [] =
      ([], Except.error CoreError.validationError) ∧
    ((["cbc.pdf", "xray.png"] : List String) ≠ [] →
      ingest [] "routine visit" "2026-01-05" "CLM-9" ["cbc.pdf", "xray.png"] =
        ([] ++ [ingestClaim "routine visit" "2026-01-05" "CLM-9"
            ["cbc.pdf", "xray.png"]],
         Except.ok ("CLM-9", ClaimStatus.pending)) ∧
      (ingestClaim "routine visit" "2026-01-05" "CLM-9"
          ["cbc.pdf", "xray.png"]).status = ClaimStatus.pending ∧
      ∀ r ∈ (ingestClaim "routine visit" "2026-01-05" "CLM-9"
          ["cbc.pdf", "xray.png"]).reports,
        r.evaluation = Evaluation.pending) :=
  ingest_validation_and_creation [] "routine visit" "2026-01-05" "CLM-9"
    ["cbc.pdf", "xray.png"] (by decide) (by rfl)

/-! Frontend: file selection on the submission page
(`SubmitClaimPage.jsx`). -/

/-- The metadata of a selected file that the submission page uses to
identify it: the `(name, size, lastModified)` triple. -/
structure FileMeta where
  name : String
  size : Nat
  lastModified : Nat
deriving DecidableEq, Repr

/-- The dedup key built in `addFiles`:
the template string of name, size and lastModified. -/
def fileKey (f : FileMeta) : String :=
  f.name ++ "-" ++ toString f.size ++ "-" ++ toString f.lastModified

/-- One step of the `forEach` loop in `addFiles`: skip a file whose key is
already in the seen set, otherwise record the key and push the file. -/
def addFilesStep (acc : List String × List FileMeta) (file : FileMeta) :
    List String × List FileMeta :=
  let key := fileKey file
  if key ∈ acc.1 then acc else (key :: acc.1, acc.2 ++ [file])

/-- The handler `addFiles` from `SubmitClaimPage.jsx`: an empty chooser event leaves
the selection unchanged; otherwise the newly chosen files are appended to
the current selection, skipping any whose key is already seen (the seen
set starts as the keys of the current selection). -/
def addFiles (current nextFiles : List FileMeta) : List FileMeta :=
  if nextFiles.isEmpty then current
  else (nextFiles.foldl addFilesStep (current.map fileKey, current)).2

/-- The predicate of `removeFile`'s filter: an entry is dropped exactly
when all three of name, size and lastModified match the argument. -/
def matchesRemoval (fileToRemove f : FileMeta) : Bool :=
  f.name == fileToRemove.name && f.size == fileToRemove.size &&
    f.lastModified == fileToRemove.lastModified

/-- The handler `removeFile` from `SubmitClaimPage.jsx`: keep exactly the entries that
do not match the argument on all three fields. -/
def removeFile (fileToRemove : FileMeta) (current : List FileMeta) :
    List FileMeta :=
  current.filter (fun f => !(matchesRemoval fileToRemove f))

/-- A user interaction with the selection: a chooser event or a Remove
click. -/
inductive FileOp where
  | add (nextFiles : List FileMeta)
  | remove (fileToRemove : FileMeta)
deriving Repr

/-- Apply one interaction to the current selection. -/
def applyFileOp (current : List FileMeta) : FileOp → List FileMeta
  | FileOp.add nextFiles => addFiles current nextFiles
  | FileOp.remove fileToRemove => removeFile fileToRemove current

/-- The selection reached from the initial empty state (`useState([])`)
by a sequence of interactions. -/
def runFileOps (ops : List FileOp) : List FileMeta :=
  ops.foldl applyFileOp []

/-- The fold of `addFiles` preserves key distinctness as long as every
key of the accumulated selection is in the seen set. -/
theorem addFiles_fold_nodup (fs : List FileMeta) (seen : List String)
    (merged : List FileMeta) (hnd : (merged.map fileKey).Nodup)
    (hsub : ∀ k ∈ merged.map fileKey, k ∈ seen) :
    (((fs.foldl addFilesStep (seen, merged)).2.map fileKey).Nodup) ∧
    (∀ k ∈ (fs.foldl addFilesStep (seen, merged)).2.map fileKey,
      k ∈ (fs.foldl addFilesStep (seen, merged)).1) := by
  induction fs generalizing seen merged with
  | nil => exact ⟨hnd, hsub⟩
  | cons f fs ih =>
    rw [List.foldl_cons]
    by_cases hk : fileKey f ∈ seen
    · have hstep : addFilesStep (seen, merged) f = (seen, merged) := by
        unfold addFilesStep
        simp only [if_pos hk]
      rw [hstep]
      exact ih seen merged hnd hsub
    · have hstep : addFilesStep (seen, merged) f =
          (fileKey f :: seen, merged ++ [f]) := by
        unfold addFilesStep
        simp only [if_neg hk]
      rw [hstep]
      refine ih _ _ ?_ ?_
      · rw [List.map_append]
        rw [List.nodup_append]
        refine ⟨hnd, by simp, ?_⟩
        intro k hkm hkf
        simp only [List.map_cons, List.map_nil, List.mem_cons,
          List.not_mem_nil, or_false] at hkf
        exact hk (hkf ▸ hsub k hkm)
      · intro k hkm
        rw [List.map_append] at hkm
        rcases List.mem_append.mp hkm with hkm | hkm
        · exact List.mem_cons_of_mem _ (hsub k hkm)
        · simp only [List.map_cons, List.map_nil, List.mem_cons,
            List.not_mem_nil, or_false] at hkm
          exact hkm ▸ List.mem_cons_self _ _

/-- Adding files preserves distinctness of the dedup keys. -/
theorem addFiles_nodup (current nextFiles : List FileMeta)
    (h : (current.map fileKey).Nodup) :
    ((addFiles current nextFiles).map fileKey).Nodup := by
  unfold addFiles
  by_cases he : nextFiles.isEmpty
  · rw [if_pos he]
    exact h
  · rw [if_neg he]
    exact (addFiles_fold_nodup nextFiles (current.map fileKey) current h
      (fun k hk => hk)).1

/-- Removing a file preserves distinctness of the dedup keys. -/
theorem removeFile_nodup (fileToRemove : FileMeta) (current : List FileMeta)
    (h : (current.map fileKey).Nodup) :
    ((removeFile fileToRemove current).map fileKey).Nodup :=
  ((List.filter_sublist current).map fileKey).nodup h

/-- Every selection reachable from a key-distinct one stays key-distinct. -/
theorem runFileOps_fold_nodup (ops : List FileOp) (init : List FileMeta)
    (h : (init.map fileKey).Nodup) :
    ((ops.foldl applyFileOp init).map fileKey).Nodup := by
  induction ops generalizing init with
  | nil => exact h
  | cons op ops ih =>
    rw [List.foldl_cons]
    cases op with
    | add nextFiles => exact ih _ (addFiles_nodup init nextFiles h)
    | remove fileToRemove => exact ih _ (removeFile_nodup fileToRemove init h)

/-- C8: after any sequence of `addFiles`/`removeFile` interactions the
selection holds no two entries with the same `(name, size, lastModified)`
triple, and `removeFile` removes exactly the entries matching all three
fields of its argument, keeping every other entry in place and in order. -/
theorem selected_files_invariant (ops : List FileOp) (fileToRemove : FileMeta)
    (l : List FileMeta) :
    (runFileOps ops).Nodup ∧
    (removeFile fileToRemove l).Sublist l ∧
    (∀ x : FileMeta, x ∈ removeFile fileToRemove l ↔
      (x ∈ l ∧ ¬ (x.name = fileToRemove.name ∧ x.size = fileToRemove.size ∧
        x.lastModified = fileToRemove.lastModified))) := by
  refine ⟨?_, List.filter_sublist l, ?_⟩
  · exact (runFileOps_fold_nodup ops [] (by simp)).of_map fileKey
  · intro x
    rw [removeFile, List.mem_filter]
    constructor
    · rintro ⟨hx, hp⟩
      refine ⟨hx, ?_⟩
      rintro ⟨h1, h2, h3⟩
      rw [Bool.not_eq_true'] at hp
      unfold matchesRemoval at hp
      rw [h1, h2, h3] at hp
      simp at hp
    · rintro ⟨hx, hp⟩
      refine ⟨hx, ?_⟩
      rw [Bool.not_eq_true']
      unfold matchesRemoval
      by_contra hc
      rw [Bool.not_eq_false] at hc
      simp only [Bool.and_eq_true, beq_iff_eq] at hc
      exact hp ⟨hc.1.1, hc.1.2, hc.2⟩

/-! Frontend: the shared response handling of `api.js`. -/

/-- JSON values, the shape of a parsed response body. -/
inductive Json where
  | null
  | bool (b : Bool)
  | num (n : Int)
  | str (s : String)
  | arr (elems : List Json)
  | obj (fields : List (String × Json))

/-- Field access `data.error` on a JSON document. -/
def Json.lookupField : Json → String → Option Json
  | Json.obj fields, key =>
    (List.find? (fun kv => kv.1 == key) fields).map (fun kv => kv.2)
  | _, _ => none

/-- JavaScript truthiness of a JSON value, deciding `data.error || ...`. -/
def Json.truthy : Json → Bool
  | Json.null => false
  | Json.bool b => b
  | Json.num n => !(n == 0)
  | Json.str s => !(s == "")
  | Json.arr _ => true
  | Json.obj _ => true

/-- JavaScript string conversion of a JSON value, the message an `Error`
constructor would receive. -/
def Json.display : Json → String
  | Json.null => "null"
  | Json.bool b => toString b
  | Json.num n => toString n
  | Json.str s => s
  | Json.arr elems =>
    String.intercalate "," (elems.attach.map (fun j => Json.display j.1))
  | Json.obj _ => "[object Object]"
decreasing_by
  simp only [Json.arr.sizeOf_spec]
  have := List.sizeOf_lt_of_mem j.2
  omega

/-- The substring test `a.includes(b)` on strings. -/
def strIncludes (s pattern : String) : Bool :=
  decide (List.IsInfix pattern.data s.data)

/-- An HTTP response as `parseApiResponse` observes it: the `ok` flag and
status, the `content-type` header (`""` when absent, mirroring
`headers.get(..) || ""`), the result of `response.json()` (`none` when the
body is not valid JSON, in which case `response.json()` rejects), and the
result of `response.text()`. -/
structure ApiResponse where
  ok : Bool
  status : Nat
  contentType : String
  json : Option Json
  text : String

/-- The message of a non-ok JSON response:
`data.error || Request failed with status N`. -/
def jsonFailureMessage (data : Json) (status : Nat) : String :=
  match Json.lookupField data "error" with
  | some e =>
    if e.truthy then e.display else "Request failed with status " ++ toString status
  | none => "Request failed with status " ++ toString status

/-- The helper `parseApiResponse` from `api.js`: a JSON-typed response is parsed and
returned when `ok`, turned into a thrown error otherwise; a non-JSON body
throws, with a dedicated message when it looks like an HTML page. -/
def parseApiResponse (r : ApiResponse) : Except String Json :=
  if strIncludes r.contentType "application/json" then
    match r.json with
    | none => Except.error "Unexpected end of JSON input"
    | some data =>
      if !r.ok then Except.error (jsonFailureMessage data r.status)
      else Except.ok data
  else
    let rawText := r.text
    if rawText.trim.startsWith "<!doctype" || rawText.trim.startsWith "<html" then
      Except.error "API returned HTML instead of JSON. Try restarting the backend."
    else
      Except.error
        (if rawText == "" then "Request failed with status " ++ toString r.status
         else rawText)

/-- An ok response declaring JSON whose body does not parse as JSON. -/
def sampleMalformedJsonResponse : ApiResponse :=
  { ok := true, status := 200, contentType := "application/json",
    json := none, text := "not json" }

/-- C9 counterexample: an ok response with a JSON content-type whose body
fails to parse makes `parseApiResponse` throw instead of returning a
value. -/
theorem parseApiResponse_ok_json_not_sufficient :
    sampleMalformedJsonResponse.ok = true ∧
    strIncludes sampleMalformedJsonResponse.contentType "application/json" = true ∧
    parseApiResponse sampleMalformedJsonResponse =
      Except.error "Unexpected end of JSON input" := by
  refine ⟨rfl, by decide, by rfl⟩

/-- C9 (amended): `parseApiResponse` returns a value exactly when the
response is ok, declares a JSON content-type, and its body parses as
JSON; the returned value is that parsed body, and in every other case the
function throws an error. -/
theorem parseApiResponse_returns_iff (r : ApiResponse) :
    ((∃ d, parseApiResponse r = Except.ok d) ↔
      (r.ok = true ∧ strIncludes r.contentType "application/json" = true ∧
        r.json.isSome = true)) ∧
    (∀ d, parseApiResponse r = Except.ok d → r.json = some d) ∧
    (¬ (r.ok = true ∧ strIncludes r.contentType "application/json" = true ∧
        r.json.isSome = true) →
      ∃ msg, parseApiResponse r = Except.error msg) := by
  have hchar : ∀ d, parseApiResponse r = Except.ok d ↔
      (r.ok = true ∧ strIncludes r.contentType "application/json" = true ∧
        r.json = some d) := by
    intro d
    unfold parseApiResponse
    by_cases hct : strIncludes r.contentType "application/json" = true
    · rw [if_pos hct]
      cases hj : r.json with
      | none => simp [hct]
      | some data =>
        by_cases hok : r.ok = true
        · simp [hok, hct, eq_comm]
        · have hok' : r.ok = false := by
            simpa using hok
          simp [hok', hct]
    · rw [if_neg hct]
      by_cases hh : (r.text.trim.startsWith "<!doctype" ||
          r.text.trim.startsWith "<html") = true
      · simp [hh, hct]
      · have hh' : (r.text.trim.startsWith "<!doctype" ||
            r.text.trim.startsWith "<html") = false := by
          simpa using hh
        simp [hh', hct]
  refine ⟨?_, ?_, ?_⟩
  · constructor
    · rintro ⟨d, hd⟩
      have := (hchar d).mp hd
      exact ⟨this.1, this.2.1, by rw [this.2.2]; rfl⟩
    · rintro ⟨hok, hct, hj⟩
      cases hjs : r.json with
      | none => rw [hjs] at hj; exact absurd hj (by simp)
      | some data => exact ⟨data, (hchar data).mpr ⟨hok, hct, hjs⟩⟩
  · intro d hd
    exact ((hchar d).mp hd).2.2
  · intro hn
    cases he : parseApiResponse r with
    | error msg => exact ⟨msg, rfl⟩
    | ok d =>
      have := (hchar d).mp he
      exact absurd ⟨this.1, this.2.1, by rw [this.2.2]; rfl⟩ hn

/-! Frontend: the claims-list filters (`ClaimsListPage.jsx`). -/

/-- The conversion `toLowerCase()`: lower-case every character. -/
def strToLower (s : String) : String :=
  String.mk (s.data.map Char.toLower)

/-- A whitespace character as `trim()` understands it. -/
def isWhitespaceChar (c : Char) : Bool :=
  c == ' ' || c == '\t' || c == '\n' || c == '\r'

/-- The conversion `trim()`: strip whitespace from both ends. -/
def strTrim (s : String) : String :=
  String.mk
    (((s.data.dropWhile isWhitespaceChar).reverse.dropWhile
      isWhitespaceChar).reverse)

/-- The fields of a loaded claim that the list filters inspect. -/
structure ClaimRow where
  submission_id : String
  created_at : String
  status : String
deriving DecidableEq, Repr

/-- The helper `getClaimDate` from `ClaimsListPage.jsx`: the `YYYY-MM-DD` prefix of a
claim's creation timestamp, or `""` when the value is absent. -/
def getClaimDate (createdAt : String) : String :=
  if createdAt == "" then "" else createdAt.take 10

/-- The filter predicate of `filteredClaims`: the claim id filter
(already trimmed and lowercased), the date filter and the status filter
must each be inactive or matched. -/
def claimMatchesFilters (statusFilter dateFilter normalizedClaimId : String)
    (claim : ClaimRow) : Bool :=
  (normalizedClaimId == "" ||
    strIncludes (strToLower claim.submission_id) normalizedClaimId) &&
  (dateFilter == "" || getClaimDate claim.created_at == dateFilter) &&
  (statusFilter == "all" || strToLower claim.status == statusFilter)

/-- The memo `filteredClaims` from `ClaimsListPage.jsx`: the loaded claims filtered
by claim id substring, creation date and status. -/
def filteredClaims (claims : List ClaimRow)
    (statusFilter dateFilter claimIdFilter : String) : List ClaimRow :=
  let normalizedClaimId := strToLower (strTrim claimIdFilter)
  claims.filter (claimMatchesFilters statusFilter dateFilter normalizedClaimId)

/-- C10: the filtered list is an order-preserving subsequence of the
loaded claims, so the shown count never exceeds the total; and with the
`clearFilters` values (`statusFilter = "all"`, empty date and claim id
filters) it is the full claims list. -/
theorem filteredClaims_sublist_and_default (claims : List ClaimRow)
    (statusFilter dateFilter claimIdFilter : String) :
    (filteredClaims claims statusFilter dateFilter claimIdFilter).Sublist claims ∧
    (filteredClaims claims statusFilter dateFilter claimIdFilter).length ≤
      claims.length ∧
    filteredClaims claims "all" "" "" = claims := by
  refine ⟨List.filter_sublist claims, (List.filter_sublist claims).length_le, ?_⟩
  unfold filteredClaims
  have hnorm : strToLower (strTrim "") = "" := by decide
  rw [hnorm]
  apply List.filter_eq_self.mpr
  intro claim _
  unfold claimMatchesFilters
  simp

end ClaimsDashboard
